import Mathlib

/-!
Verification of the per-entity animation scheduler of `src/idea-execution/script.js`
(`Card.animate`, `Card.update`, `Card.setHover`, and the easing functions).

JavaScript numbers are modelled as exact rationals (ℚ).  Completion callbacks
(`onComplete`) are modelled as opaque identifiers (ℕ) interpreted by a host
function `run : ℕ → Card → Card`; `Card.update` additionally returns a trace of
observable events (slot writes and callback firings, in execution order) so that
temporal claims can be stated.
-/

namespace MediaArt

/-- Configuration constant `CONFIG.HOVER_SCALE = 1.05`. -/
def HOVER_SCALE : ℚ := 1.05

/-- Configuration constant `CONFIG.TILT_SMOOTHING = 0.15`. -/
def TILT_SMOOTHING : ℚ := 0.15

/-- `const easeOutCubic = (t) => 1 - Math.pow(1 - t, 3)`. -/
def easeOutCubic (t : ℚ) : ℚ := 1 - (1 - t) ^ 3

/-- `const easeInOutCubic = (t) => t < 0.5 ? 4 * t * t * t : 1 - Math.pow(-2 * t + 2, 3) / 2`. -/
def easeInOutCubic (t : ℚ) : ℚ :=
  if t < 0.5 then 4 * t * t * t else 1 - (-2 * t + 2) ^ 3 / 2

/-- `const easeInCubic = (t) => t * t * t`. -/
def easeInCubic (t : ℚ) : ℚ := t * t * t

/-- Modelled from the spec: the `linear` easing used by the spec's concrete
scenario (`enqueue('opacity', 0, 1, 0.5, linear)`) is not defined anywhere in
the source; the spec treats it as the identity curve. -/
def linear (t : ℚ) : ℚ := t

/-- One queued animation: the object literal built by `Card.animate` (and, for
flip animations, by `Card.flip`, which sets `isFlipAnimation: true`).  The
`onComplete` callback is an opaque identifier interpreted by the host. -/
structure Animation where
  property : String
  from_ : ℚ
  to_ : ℚ
  duration : ℚ
  easing : ℚ → ℚ
  elapsed : ℚ
  onComplete : Option ℕ
  isFlipAnimation : Bool

/-- The animation-relevant state of a `Card`: the current-value slots the
scheduler writes, the hover/slide flags and tilt state read and written by
`Card.update` and `Card.setHover`, and the animation queue. -/
structure Card where
  currentRotationX : ℚ
  currentRotationY : ℚ
  currentPositionX : ℚ
  currentPositionY : ℚ
  currentPositionZ : ℚ
  currentScale : ℚ
  currentOpacity : ℚ
  tiltOffsetX : ℚ
  tiltOffsetY : ℚ
  hoverTiltTargetX : ℚ
  hoverTiltTargetY : ℚ
  isHovered : Bool
  isSliding : Bool
  animations : List Animation

/-- An observable event of one `Card.update` call: a write of an interpolated
value into a named slot, or the invocation of an `onComplete` callback. -/
inductive Event where
  | write (property : String) (value : ℚ)
  | fire (id : ℕ)
deriving DecidableEq

/-- `Math.min(anim.elapsed / anim.duration, 1)` under JavaScript (IEEE-754)
semantics, carried to exact rationals.  For `duration ≠ 0` this is exact
division.  For `duration = 0` JavaScript yields `elapsed / 0 = +∞` when
`0 < elapsed` (so the min is `1`), and `0 / 0 = NaN` otherwise (the min is then
`NaN`); we encode the `NaN` (and `-∞`) outcomes as `0`, which agrees with IEEE
on the one comparison the scheduler performs with it (`NaN >= 1` is false, and
`0 >= 1` is false).  The eased value written to a slot in that degenerate
corner is `NaN` in JavaScript and is not representable here, so no theorem in
this file constrains the written value when `duration = 0 ∧ elapsed ≤ 0`. -/
def jsMinDiv1 (elapsed duration : ℚ) : ℚ :=
  if duration = 0 then (if 0 < elapsed then 1 else 0) else min (elapsed / duration) 1

/-- `anim.elapsed += deltaTime` (the first statement of the filter body). -/
def advanceAnim (dt : ℚ) (a : Animation) : Animation := { a with elapsed := a.elapsed + dt }

/-- `const progress = Math.min(anim.elapsed / anim.duration, 1)`. -/
def Animation.progress (a : Animation) : ℚ := jsMinDiv1 a.elapsed a.duration

/-- `anim.from + (anim.to - anim.from) * anim.easing(progress)`. -/
def interpValue (a : Animation) : ℚ := a.from_ + (a.to_ - a.from_) * a.easing a.progress

/-- The property names recognized by the dispatch chain in `Card.update`. -/
def knownProperties : List String :=
  ["rotationY", "rotationX", "positionX", "positionY", "positionZ", "scale", "opacity"]

/-- `Card.setOpacity(value)`: records the current opacity (the material-object
updates are external rendering state and are out of scope). -/
def Card.setOpacity (c : Card) (value : ℚ) : Card := { c with currentOpacity := value }

/-- The `if/else if` dispatch chain inside `Card.update` that writes an eased
value into the slot named by `anim.property`; the chain has no `else` branch,
so an unrecognized property name changes nothing. -/
def Card.applyValue (c : Card) (property : String) (value : ℚ) : Card :=
  if property = "rotationY" then { c with currentRotationY := value }
  else if property = "rotationX" then { c with currentRotationX := value }
  else if property = "positionX" then { c with currentPositionX := value }
  else if property = "positionY" then { c with currentPositionY := value }
  else if property = "positionZ" then { c with currentPositionZ := value }
  else if property = "scale" then { c with currentScale := value }
  else if property = "opacity" then c.setOpacity value
  else c

/-- Observation function: the current value of the slot named `property`
(reads the same fields the dispatch chain writes; `0` on unknown names). -/
def readSlot (c : Card) (property : String) : ℚ :=
  if property = "rotationY" then c.currentRotationY
  else if property = "rotationX" then c.currentRotationX
  else if property = "positionX" then c.currentPositionX
  else if property = "positionY" then c.currentPositionY
  else if property = "positionZ" then c.currentPositionZ
  else if property = "scale" then c.currentScale
  else if property = "opacity" then c.currentOpacity
  else 0

/-- Result of the `this.animations.filter(...)` pass of `Card.update`: the card
with all slot writes applied, the surviving (advanced) animations in order, the
collected `completedCallbacks` in traversal order, and the trace of writes. -/
structure StepResult where
  card : Card
  kept : List Animation
  fired : List ℕ
  trace : List Event

/-- The body of `this.animations = this.animations.filter(anim => ...)`:
processed left to right, each animation is advanced, its eased value is written
into the card, completed animations are dropped from the kept list and their
callbacks collected (`completedCallbacks.push`), in list order. -/
def Card.stepAnims (dt : ℚ) : Card → List Animation → StepResult
  | c, [] => ⟨c, [], [], []⟩
  | c, anim :: rest =>
    let a := advanceAnim dt anim
    let easedProgress := a.easing a.progress
    let value := a.from_ + (a.to_ - a.from_) * easedProgress
    let c1 := c.applyValue a.property value
    let evs0 : List Event :=
      if a.property ∈ knownProperties then [Event.write a.property value] else []
    let r := Card.stepAnims dt c1 rest
    if 1 ≤ a.progress then
      ⟨r.card, r.kept,
        (match a.onComplete with | some id => id :: r.fired | none => r.fired),
        evs0 ++ r.trace⟩
    else
      ⟨r.card, a :: r.kept, r.fired, evs0 ++ r.trace⟩

/-- `completedCallbacks.forEach(callback => callback())`: each collected
callback identifier is interpreted by the host function `run`, in order,
producing fire events. -/
def runCallbacks (run : ℕ → Card → Card) : Card → List ℕ → Card × List Event
  | c, [] => (c, [])
  | c, id :: rest =>
    let r := runCallbacks run (run id c) rest
    (r.1, Event.fire id :: r.2)

/-- The hover-tilt smoothing at the tail of `Card.update` (the final
`this.group` transform application is external rendering state);
`hasFlipAnim` is `this.animations.some(a => a.isFlipAnimation)`, evaluated
after the callbacks have run. -/
def Card.applyTilt (c : Card) : Card :=
  if c.isHovered && !(c.animations.any (·.isFlipAnimation)) then
    { c with
      tiltOffsetX := c.tiltOffsetX + (c.hoverTiltTargetX - c.tiltOffsetX) * TILT_SMOOTHING,
      tiltOffsetY := c.tiltOffsetY + (c.hoverTiltTargetY - c.tiltOffsetY) * TILT_SMOOTHING }
  else if !c.isHovered then
    { c with
      tiltOffsetX := c.tiltOffsetX + (0 - c.tiltOffsetX) * TILT_SMOOTHING,
      tiltOffsetY := c.tiltOffsetY + (0 - c.tiltOffsetY) * TILT_SMOOTHING }
  else c

/-- `Card.update(deltaTime)`: one filter pass over the queue snapshot, queue
reassignment, deferred callback invocation, then tilt smoothing.  Returns the
new card and the event trace of the call. -/
def Card.update (run : ℕ → Card → Card) (dt : ℚ) (c : Card) : Card × List Event :=
  let s := Card.stepAnims dt c c.animations
  let c1 : Card := { s.card with animations := s.kept }
  let r := runCallbacks run c1 s.fired
  (Card.applyTilt r.1, s.trace ++ r.2)

/-- The animation object literal constructed by `Card.animate` (`elapsed: 0`,
no `isFlipAnimation` key, hence falsy). -/
def mkAnimation (property : String) (from_ to_ duration : ℚ) (easing : ℚ → ℚ)
    (onComplete : Option ℕ) : Animation :=
  ⟨property, from_, to_, duration, easing, 0, onComplete, false⟩

/-- `Card.animate(property, from, to, duration, easing, onComplete)`:
constructs an animation and pushes it onto the queue. -/
def Card.animate (c : Card) (property : String) (from_ to_ duration : ℚ) (easing : ℚ → ℚ)
    (onComplete : Option ℕ) : Card :=
  { c with animations := c.animations ++ [mkAnimation property from_ to_ duration easing onComplete] }

/-- The filter predicate of `setHover`'s queue-clearing step:
`(a.property !== 'scale' && a.property !== 'positionZ') || a.isFlipAnimation`. -/
def keepOnHover (a : Animation) : Bool :=
  (!(a.property == "scale") && !(a.property == "positionZ")) || a.isFlipAnimation

/-- `Card.setHover(isHovered)`: a no-op while a flip animation is queued or the
card is sliding; otherwise sets the hover flag, drops every non-flip `scale` /
`positionZ` animation, and enqueues the two replacement animations. -/
def Card.setHover (c : Card) (isHovered : Bool) : Card :=
  let hasFlipAnim := c.animations.any (·.isFlipAnimation)
  if hasFlipAnim || c.isSliding then c
  else
    let c1 : Card := { c with isHovered := isHovered }
    let c2 : Card := { c1 with animations := c1.animations.filter keepOnHover }
    if isHovered then
      (c2.animate "scale" c2.currentScale HOVER_SCALE 0.2 easeOutCubic none).animate
        "positionZ" c2.currentPositionZ 0.3 0.2 easeOutCubic none
    else
      let c3 : Card := { c2 with hoverTiltTargetX := 0, hoverTiltTargetY := 0 }
      (c3.animate "scale" c3.currentScale 1 0.2 easeOutCubic none).animate
        "positionZ" c3.currentPositionZ 0 0.2 easeOutCubic none

/-- The host interpretation in which callbacks do nothing. -/
def noRun : ℕ → Card → Card := fun _ c => c

/-- The host interpretation in which callback `id` enqueues the animations
`g id` (the `onComplete`-calls-`animate` chaining pattern). -/
def enqueueRun (g : ℕ → List Animation) : ℕ → Card → Card :=
  fun id c => { c with animations := c.animations ++ g id }

/-- Iterated `Card.update` over a list of frame deltas, concatenating traces. -/
def runUpdates (run : ℕ → Card → Card) : Card → List ℚ → Card × List Event
  | c, [] => (c, [])
  | c, dt :: rest =>
    let r := Card.update run dt c
    let r2 := runUpdates run r.1 rest
    (r2.1, r.2 ++ r2.2)

/-- The callbacks one `update(dt)` call collects, in queue-traversal order. -/
def completedIds (dt : ℚ) (anims : List Animation) : List ℕ :=
  anims.filterMap (fun a => if 1 ≤ (advanceAnim dt a).progress then a.onComplete else none)

/-- A concrete card state as `constructor(index)` leaves it: zero rotation,
position and tilt, scale `1`, opacity `0`, both flags clear, empty queue. -/
def freshCard : Card :=
  ⟨0, 0, 0, 0, 0, 1, 0, 0, 0, 0, 0, false, false, []⟩

/-- The easing `t ↦ t / 2`: a pure easing curve (the data model allows any
pure function as an easing) whose value at progress 1 is `1/2`, not `1`. -/
def halfEase (t : ℚ) : ℚ := t / 2

/-- A card with one animation targeting the unrecognized property name
`"wobble"` (`enqueue` performs no validation, so this is reachable). -/
def wobbleCard : Card := freshCard.animate "wobble" 0 5 2 linear none

/-- A card with one degenerate `duration = 0` animation carrying callback 7. -/
def zeroDurCard : Card := freshCard.animate "opacity" 0 1 0 linear (some 7)

/-- The spec's conflicting-animation scenario: two queued `positionZ`
animations, neither cancelled. -/
def conflictCard : Card :=
  (freshCard.animate "positionZ" 3 0 (1/2) easeOutCubic none).animate
    "positionZ" 3 (-15) (3/5) easeInCubic none

/-- A card mid-slide (`isSliding = true`), for the `setHover` gating no-op. -/
def slidingCard : Card := { freshCard with isSliding := true }

/-- A card with a non-flip `scale` animation queued, which `setHover` clears. -/
def hoverDemoCard : Card := freshCard.animate "scale" 1 2 1 linear none

@[simp] lemma advanceAnim_property (dt : ℚ) (a : Animation) :
    (advanceAnim dt a).property = a.property := rfl

@[simp] lemma advanceAnim_onComplete (dt : ℚ) (a : Animation) :
    (advanceAnim dt a).onComplete = a.onComplete := rfl

@[simp] lemma advanceAnim_duration (dt : ℚ) (a : Animation) :
    (advanceAnim dt a).duration = a.duration := rfl

@[simp] lemma advanceAnim_elapsed (dt : ℚ) (a : Animation) :
    (advanceAnim dt a).elapsed = a.elapsed + dt := rfl

@[simp] lemma advanceAnim_isFlipAnimation (dt : ℚ) (a : Animation) :
    (advanceAnim dt a).isFlipAnimation = a.isFlipAnimation := rfl

@[simp] lemma advanceAnim_from (dt : ℚ) (a : Animation) :
    (advanceAnim dt a).from_ = a.from_ := rfl

@[simp] lemma advanceAnim_to (dt : ℚ) (a : Animation) :
    (advanceAnim dt a).to_ = a.to_ := rfl

@[simp] lemma advanceAnim_easing (dt : ℚ) (a : Animation) :
    (advanceAnim dt a).easing = a.easing := rfl

@[simp] lemma mkAnimation_property (p : String) (f t d : ℚ) (e : ℚ → ℚ) (oc : Option ℕ) :
    (mkAnimation p f t d e oc).property = p := rfl

@[simp] lemma mkAnimation_from (p : String) (f t d : ℚ) (e : ℚ → ℚ) (oc : Option ℕ) :
    (mkAnimation p f t d e oc).from_ = f := rfl

@[simp] lemma mkAnimation_to (p : String) (f t d : ℚ) (e : ℚ → ℚ) (oc : Option ℕ) :
    (mkAnimation p f t d e oc).to_ = t := rfl

@[simp] lemma mkAnimation_duration (p : String) (f t d : ℚ) (e : ℚ → ℚ) (oc : Option ℕ) :
    (mkAnimation p f t d e oc).duration = d := rfl

@[simp] lemma mkAnimation_easing (p : String) (f t d : ℚ) (e : ℚ → ℚ) (oc : Option ℕ) :
    (mkAnimation p f t d e oc).easing = e := rfl

@[simp] lemma mkAnimation_elapsed (p : String) (f t d : ℚ) (e : ℚ → ℚ) (oc : Option ℕ) :
    (mkAnimation p f t d e oc).elapsed = 0 := rfl

@[simp] lemma mkAnimation_onComplete (p : String) (f t d : ℚ) (e : ℚ → ℚ) (oc : Option ℕ) :
    (mkAnimation p f t d e oc).onComplete = oc := rfl

@[simp] lemma mkAnimation_isFlipAnimation (p : String) (f t d : ℚ) (e : ℚ → ℚ) (oc : Option ℕ) :
    (mkAnimation p f t d e oc).isFlipAnimation = false := rfl

lemma applyValue_animations (c : Card) (p : String) (v : ℚ) :
    (c.applyValue p v).animations = c.animations := by
  unfold Card.applyValue Card.setOpacity
  split_ifs <;> rfl

lemma readSlot_setAnimations (c : Card) (l : List Animation) (p : String) :
    readSlot { c with animations := l } p = readSlot c p := by
  unfold readSlot
  split_ifs <;> rfl

lemma readSlot_applyValue_self (c : Card) (p : String) (v : ℚ) (hp : p ∈ knownProperties) :
    readSlot (c.applyValue p v) p = v := by
  fin_cases hp <;> rfl

lemma readSlot_applyTilt (c : Card) (p : String) :
    readSlot (Card.applyTilt c) p = readSlot c p := by
  unfold readSlot Card.applyTilt
  split_ifs <;> rfl

lemma applyTilt_animations (c : Card) : (Card.applyTilt c).animations = c.animations := by
  unfold Card.applyTilt
  split_ifs <;> rfl

lemma runCallbacks_trace (run : ℕ → Card → Card) (ids : List ℕ) (c : Card) :
    (runCallbacks run c ids).2 = ids.map Event.fire := by
  induction ids generalizing c with
  | nil => rfl
  | cons i rest ih => simp [runCallbacks, ih]

lemma runCallbacks_noRun (ids : List ℕ) (c : Card) :
    (runCallbacks noRun c ids).1 = c := by
  induction ids generalizing c with
  | nil => rfl
  | cons i rest ih => simp [runCallbacks, noRun, ih]

lemma stepAnims_card_animations (dt : ℚ) (l : List Animation) (c : Card) :
    (Card.stepAnims dt c l).card.animations = c.animations := by
  induction l generalizing c with
  | nil => rfl
  | cons a rest ih =>
    by_cases h : 1 ≤ (advanceAnim dt a).progress
    · simp [Card.stepAnims, h, ih, applyValue_animations]
    · simp [Card.stepAnims, h, ih, applyValue_animations]

lemma stepAnims_kept (dt : ℚ) (l : List Animation) (c : Card) :
    (Card.stepAnims dt c l).kept =
      (l.map (advanceAnim dt)).filter (fun a => !decide (1 ≤ a.progress)) := by
  induction l generalizing c with
  | nil => rfl
  | cons a rest ih =>
    simp only [Card.stepAnims, List.map_cons, List.filter_cons]
    by_cases h : 1 ≤ (advanceAnim dt a).progress
    · simp [h, ih]
    · simp [h, ih]

lemma stepAnims_fired (dt : ℚ) (l : List Animation) (c : Card) :
    (Card.stepAnims dt c l).fired = completedIds dt l := by
  induction l generalizing c with
  | nil => rfl
  | cons a rest ih =>
    simp only [Card.stepAnims, completedIds, List.filterMap_cons]
    by_cases h : 1 ≤ (advanceAnim dt a).progress
    · cases hoc : a.onComplete <;>
        simp [h, hoc, ih, completedIds, advanceAnim_onComplete]
    · cases hoc : a.onComplete <;>
        simp [h, hoc, ih, completedIds, advanceAnim_onComplete]

lemma stepAnims_trace_writes (dt : ℚ) (l : List Animation) (c : Card) :
    ∀ e ∈ (Card.stepAnims dt c l).trace, ∃ p v, e = Event.write p v := by
  induction l generalizing c with
  | nil => intro e he; cases he
  | cons a rest ih =>
    intro e he
    simp only [Card.stepAnims] at he
    split at he <;>
    · simp only [List.mem_append] at he
      rcases he with he | he
      · split at he <;> simp_all
      · exact ih _ e he

lemma update_trace (run : ℕ → Card → Card) (dt : ℚ) (c : Card) :
    (Card.update run dt c).2 =
      (Card.stepAnims dt c c.animations).trace ++ (completedIds dt c.animations).map Event.fire := by
  unfold Card.update
  simp [runCallbacks_trace, stepAnims_fired]

lemma update_noRun_animations (dt : ℚ) (c : Card) :
    (Card.update noRun dt c).1.animations = (Card.stepAnims dt c c.animations).kept := by
  unfold Card.update
  simp [runCallbacks_noRun, applyTilt_animations]

lemma update_noRun_readSlot (dt : ℚ) (c : Card) (p : String) :
    readSlot (Card.update noRun dt c).1 p = readSlot (Card.stepAnims dt c c.animations).card p := by
  unfold Card.update
  simp [runCallbacks_noRun, readSlot_applyTilt, readSlot_setAnimations]

/-- C9: each of the three easing functions defined in the code maps `0` to
exactly `0` and `1` to exactly `1`, so the interpolated value
`from + (to - from) * easing(progress)` equals `from` at progress `0` and
equals `to` at progress `1` for these easings. -/
theorem easing_endpoints :
    easeOutCubic 0 = 0 ∧ easeOutCubic 1 = 1 ∧
    easeInOutCubic 0 = 0 ∧ easeInOutCubic 1 = 1 ∧
    easeInCubic 0 = 0 ∧ easeInCubic 1 = 1 ∧
    (∀ f t : ℚ,
      f + (t - f) * easeOutCubic 0 = f ∧ f + (t - f) * easeOutCubic 1 = t ∧
      f + (t - f) * easeInOutCubic 0 = f ∧ f + (t - f) * easeInOutCubic 1 = t ∧
      f + (t - f) * easeInCubic 0 = f ∧ f + (t - f) * easeInCubic 1 = t) := by
  have h1 : easeOutCubic 0 = 0 := by norm_num [easeOutCubic]
  have h2 : easeOutCubic 1 = 1 := by norm_num [easeOutCubic]
  have h3 : easeInOutCubic 0 = 0 := by norm_num [easeInOutCubic]
  have h4 : easeInOutCubic 1 = 1 := by norm_num [easeInOutCubic]
  have h5 : easeInCubic 0 = 0 := by norm_num [easeInCubic]
  have h6 : easeInCubic 1 = 1 := by norm_num [easeInCubic]
  refine ⟨h1, h2, h3, h4, h5, h6, fun f t => ?_⟩
  rw [h1, h2, h3, h4, h5, h6]
  constructor
  · ring
  constructor
  · ring
  constructor
  · ring
  constructor
  · ring
  constructor
  · ring
  · ring

lemma jsMinDiv1_le_one (e d : ℚ) : jsMinDiv1 e d ≤ 1 := by
  unfold jsMinDiv1
  split_ifs <;> simp [min_le_right]

lemma jsMinDiv1_mono (d : ℚ) (hd : 0 ≤ d) (e e' : ℚ) (h : e ≤ e') :
    jsMinDiv1 e d ≤ jsMinDiv1 e' d := by
  rcases eq_or_lt_of_le hd with h0 | h0
  · rw [jsMinDiv1, jsMinDiv1, if_pos h0.symm, if_pos h0.symm]
    split_ifs <;> linarith
  · rw [jsMinDiv1, jsMinDiv1, if_neg h0.ne', if_neg h0.ne']
    have hdiv : e / d ≤ e' / d := by gcongr
    exact min_le_min hdiv (le_refl 1)

lemma mem_completedIds (dt : ℚ) (l : List Animation) (id : ℕ) (h : id ∈ completedIds dt l) :
    ∃ a ∈ l, a.onComplete = some id ∧ 1 ≤ (advanceAnim dt a).progress := by
  unfold completedIds at h
  rw [List.mem_filterMap] at h
  obtain ⟨a, ha, hsome⟩ := h
  by_cases hc : 1 ≤ (advanceAnim dt a).progress
  · rw [if_pos hc] at hsome
    exact ⟨a, ha, hsome, hc⟩
  · rw [if_neg hc] at hsome
    cases hsome

lemma stepAnims_trace_write_mem (dt : ℚ) (l : List Animation) (c : Card) :
    ∀ p v, Event.write p v ∈ (Card.stepAnims dt c l).trace → ∃ a ∈ l, a.property = p := by
  induction l generalizing c with
  | nil => intro p v hv; cases hv
  | cons a rest ih =>
    intro p v hv
    simp only [Card.stepAnims] at hv
    split at hv <;>
    · simp only [List.mem_append] at hv
      rcases hv with hv | hv
      · split at hv <;> simp_all
      · obtain ⟨b, hb, hbp⟩ := ih _ p v hv
        exact ⟨b, List.mem_cons_of_mem _ hb, hbp⟩

/-- C4: within a single `update(deltaTime)` call every slot write happens
before any `onComplete` callback fires, and the callbacks fire in
queue-processing order (the order `completedIds` lists them). -/
theorem update_writes_before_fires (run : ℕ → Card → Card) (dt : ℚ) (c : Card) :
    ∃ ws, (Card.update run dt c).2 = ws ++ (completedIds dt c.animations).map Event.fire ∧
      ∀ e ∈ ws, ∃ p v, e = Event.write p v :=
  ⟨(Card.stepAnims dt c c.animations).trace, update_trace run dt c,
    stepAnims_trace_writes dt c.animations c⟩

lemma runCallbacks_enqueueRun_animations (g : ℕ → List Animation) (ids : List ℕ) (c : Card) :
    (runCallbacks (enqueueRun g) c ids).1.animations = c.animations ++ (ids.map g).flatten := by
  induction ids generalizing c with
  | nil => simp [runCallbacks]
  | cons i rest ih => simp [runCallbacks, enqueueRun, ih]

lemma runCallbacks_enqueueRun_readSlot (g : ℕ → List Animation) (ids : List ℕ) (c : Card)
    (p : String) :
    readSlot (runCallbacks (enqueueRun g) c ids).1 p = readSlot c p := by
  induction ids generalizing c with
  | nil => rfl
  | cons i rest ih =>
    have hstep : (runCallbacks (enqueueRun g) c (i :: rest)).1
        = (runCallbacks (enqueueRun g) (enqueueRun g i c) rest).1 := rfl
    rw [hstep, ih]
    exact readSlot_setAnimations c _ p

/-- C5: an `update` call with non-negative `deltaTime` only ever advances
animations: every animation remaining in the queue is the advancement of one
that was queued before the call, its `elapsed` has not decreased, its progress
`min(elapsed/duration, 1)` has not decreased (given the non-negative duration
the data model prescribes), and progress never exceeds `1`.  Monotonicity over
a whole sequence of calls follows by chaining this step property. -/
theorem elapsed_progress_monotone (dt : ℚ) (c : Card) (hdt : 0 ≤ dt) :
    ∀ a' ∈ (Card.update noRun dt c).1.animations,
      ∃ a ∈ c.animations, a' = advanceAnim dt a ∧ a.elapsed ≤ a'.elapsed ∧
        (0 ≤ a.duration → a.progress ≤ a'.progress) ∧ a'.progress ≤ 1 := by
  intro a' ha'
  rw [update_noRun_animations, stepAnims_kept, List.mem_filter] at ha'
  obtain ⟨hmem, _⟩ := ha'
  rw [List.mem_map] at hmem
  obtain ⟨a, ha, rfl⟩ := hmem
  refine ⟨a, ha, rfl, ?_, ?_, jsMinDiv1_le_one _ _⟩
  · rw [advanceAnim_elapsed]
    linarith
  · intro hd
    unfold Animation.progress
    rw [advanceAnim_elapsed, advanceAnim_duration]
    exact jsMinDiv1_mono a.duration hd a.elapsed (a.elapsed + dt) (by linarith)

/-- Witness for C5 at a concrete input: one half-second opacity animation on a
fresh card, advanced by a quarter-second frame. -/
theorem elapsed_progress_monotone_witness :
    (0 : ℚ) ≤ 1/4 ∧
    ∀ a' ∈ (Card.update noRun (1/4)
        (freshCard.animate "opacity" 0 1 (1/2) linear none)).1.animations,
      ∃ a ∈ (freshCard.animate "opacity" 0 1 (1/2) linear none).animations,
        a' = advanceAnim (1/4) a ∧ a.elapsed ≤ a'.elapsed ∧
        (0 ≤ a.duration → a.progress ≤ a'.progress) ∧ a'.progress ≤ 1 :=
  ⟨by norm_num, elapsed_progress_monotone (1/4) _ (by norm_num)⟩

/-- C6: completion is final.  Every animation surviving an `update` call has
progress strictly below `1` (so any animation that reached progress `1` was
removed in that same call); every `onComplete` that fires belongs to an
animation that was in the queue at call start and completed there; and every
slot write comes from an animation in the queue at call start — hence a
removed animation can neither re-fire its callback nor write its slot in any
later call. -/
theorem completion_idempotent (dt : ℚ) (c : Card) :
    (∀ a' ∈ (Card.update noRun dt c).1.animations, a'.progress < 1) ∧
    (∀ id, Event.fire id ∈ (Card.update noRun dt c).2 →
      ∃ a ∈ c.animations, a.onComplete = some id ∧ 1 ≤ (advanceAnim dt a).progress) ∧
    (∀ p v, Event.write p v ∈ (Card.update noRun dt c).2 →
      ∃ a ∈ c.animations, a.property = p) := by
  refine ⟨?_, ?_, ?_⟩
  · intro a' ha'
    rw [update_noRun_animations, stepAnims_kept, List.mem_filter] at ha'
    obtain ⟨_, hlt⟩ := ha'
    simp only [Bool.not_eq_true', decide_eq_false_iff_not] at hlt
    exact lt_of_not_le hlt
  · intro id hid
    rw [update_trace, List.mem_append] at hid
    rcases hid with hid | hid
    · obtain ⟨p, v, hpv⟩ := stepAnims_trace_writes dt c.animations c _ hid
      cases hpv
    · rw [List.mem_map] at hid
      obtain ⟨j, hj, hjid⟩ := hid
      injection hjid with hji
      subst hji
      exact mem_completedIds dt c.animations _ hj
  · intro p v hpv
    rw [update_trace, List.mem_append] at hpv
    rcases hpv with hpv | hpv
    · exact stepAnims_trace_write_mem dt c.animations c p v hpv
    · rw [List.mem_map] at hpv
      obtain ⟨j, _, hj⟩ := hpv
      cases hj

/-- C3: the `update` pass advances only the snapshot of the queue taken at
call start.  If every completion callback only enqueues animations
(`onComplete` calling `animate`, modelled by `enqueueRun g`), then relative to
a callback-free run the new animations are appended at the back of the queue
exactly as constructed (not advanced), the event trace is identical (so none
of the new animations is written to a slot or completed in this call), and
every slot holds the same value. -/
theorem chained_enqueue_next_call (g : ℕ → List Animation) (dt : ℚ) (c : Card) :
    (Card.update (enqueueRun g) dt c).1.animations =
      (Card.update noRun dt c).1.animations ++ ((completedIds dt c.animations).map g).flatten ∧
    (Card.update (enqueueRun g) dt c).2 = (Card.update noRun dt c).2 ∧
    ∀ p, readSlot (Card.update (enqueueRun g) dt c).1 p =
      readSlot (Card.update noRun dt c).1 p := by
  refine ⟨?_, ?_, ?_⟩
  · unfold Card.update
    simp only [applyTilt_animations, runCallbacks_noRun,
      runCallbacks_enqueueRun_animations, stepAnims_fired]
  · rw [update_trace, update_trace]
  · intro p
    unfold Card.update
    simp only [readSlot_applyTilt, runCallbacks_noRun, runCallbacks_enqueueRun_readSlot]

lemma runUpdates_nil_fst (run : ℕ → Card → Card) (c : Card) :
    (runUpdates run c []).1 = c := rfl

lemma runUpdates_cons_fst (run : ℕ → Card → Card) (c : Card) (dt : ℚ) (rest : List ℚ) :
    (runUpdates run c (dt :: rest)).1 = (runUpdates run (Card.update run dt c).1 rest).1 := rfl

lemma runUpdates_cons_snd (run : ℕ → Card → Card) (c : Card) (dt : ℚ) (rest : List ℚ) :
    (runUpdates run c (dt :: rest)).2 =
      (Card.update run dt c).2 ++ (runUpdates run (Card.update run dt c).1 rest).2 := rfl

lemma stepAnims_singleton_keep (dt : ℚ) (c : Card) (a : Animation)
    (h : ¬ 1 ≤ (advanceAnim dt a).progress) :
    Card.stepAnims dt c [a] =
      ⟨c.applyValue a.property (interpValue (advanceAnim dt a)), [advanceAnim dt a], [],
        if a.property ∈ knownProperties
          then [Event.write a.property (interpValue (advanceAnim dt a))] else []⟩ := by
  simp [Card.stepAnims, h, interpValue]

lemma stepAnims_singleton_complete (dt : ℚ) (c : Card) (a : Animation)
    (h : 1 ≤ (advanceAnim dt a).progress) :
    Card.stepAnims dt c [a] =
      ⟨c.applyValue a.property (interpValue (advanceAnim dt a)), [], a.onComplete.toList,
        if a.property ∈ knownProperties
          then [Event.write a.property (interpValue (advanceAnim dt a))] else []⟩ := by
  cases hoc : a.onComplete <;> simp [Card.stepAnims, h, hoc, interpValue, Option.toList]

lemma count_fire_not_write (l : List Event) (id : ℕ)
    (hw : ∀ e ∈ l, ∃ p v, e = Event.write p v) : l.count (Event.fire id) = 0 := by
  rw [List.count_eq_zero]
  intro hmem
  obtain ⟨p, v, hpv⟩ := hw _ hmem
  cases hpv

lemma update_empty (dt : ℚ) (c : Card) (hq : c.animations = []) :
    (Card.update noRun dt c).1.animations = [] ∧
    (∀ p, readSlot (Card.update noRun dt c).1 p = readSlot c p) ∧
    (Card.update noRun dt c).2 = [] := by
  refine ⟨?_, ?_, ?_⟩
  · rw [update_noRun_animations, hq]
    rfl
  · intro p
    rw [update_noRun_readSlot, hq]
    rfl
  · rw [update_trace, hq]
    rfl

lemma runUpdates_empty (c : Card) (hq : c.animations = []) (ds : List ℚ) :
    (runUpdates noRun c ds).1.animations = [] ∧
    (∀ p, readSlot (runUpdates noRun c ds).1 p = readSlot c p) ∧
    (runUpdates noRun c ds).2 = [] := by
  induction ds generalizing c with
  | nil => exact ⟨hq, fun p => rfl, rfl⟩
  | cons dt rest ih =>
    obtain ⟨h1, h2, h3⟩ := update_empty dt c hq
    obtain ⟨g1, g2, g3⟩ := ih (Card.update noRun dt c).1 h1
    refine ⟨by rw [runUpdates_cons_fst]; exact g1, ?_, by rw [runUpdates_cons_snd, h3, g3]; rfl⟩
    intro p
    rw [runUpdates_cons_fst, g2 p, h2 p]

lemma update_singleton_keep (dt : ℚ) (c : Card) (a : Animation) (hq : c.animations = [a])
    (h : ¬ 1 ≤ (advanceAnim dt a).progress) :
    (Card.update noRun dt c).1.animations = [advanceAnim dt a] ∧
    (∀ p, readSlot (Card.update noRun dt c).1 p
        = readSlot (c.applyValue a.property (interpValue (advanceAnim dt a))) p) ∧
    ∀ id, (Card.update noRun dt c).2.count (Event.fire id) = 0 := by
  refine ⟨?_, ?_, ?_⟩
  · rw [update_noRun_animations, hq, stepAnims_singleton_keep dt c a h]
  · intro p
    rw [update_noRun_readSlot, hq, stepAnims_singleton_keep dt c a h]
  · intro id
    rw [update_trace, hq, List.count_append]
    have h1 : (Card.stepAnims dt c [a]).trace.count (Event.fire id) = 0 :=
      count_fire_not_write _ id (stepAnims_trace_writes dt [a] c)
    have h2 : completedIds dt [a] = [] := by
      simp [completedIds, h]
    rw [h1, h2]
    rfl

lemma update_singleton_complete (dt : ℚ) (c : Card) (a : Animation) (cbId : ℕ)
    (hq : c.animations = [a]) (hoc : a.onComplete = some cbId)
    (h : 1 ≤ (advanceAnim dt a).progress) :
    (Card.update noRun dt c).1.animations = [] ∧
    (∀ p, readSlot (Card.update noRun dt c).1 p
        = readSlot (c.applyValue a.property (interpValue (advanceAnim dt a))) p) ∧
    (Card.update noRun dt c).2.count (Event.fire cbId) = 1 := by
  refine ⟨?_, ?_, ?_⟩
  · rw [update_noRun_animations, hq, stepAnims_singleton_complete dt c a h]
  · intro p
    rw [update_noRun_readSlot, hq, stepAnims_singleton_complete dt c a h]
  · rw [update_trace, hq, List.count_append]
    have h1 : (Card.stepAnims dt c [a]).trace.count (Event.fire cbId) = 0 :=
      count_fire_not_write _ cbId (stepAnims_trace_writes dt [a] c)
    have h2 : completedIds dt [a] = [cbId] := by
      simp [completedIds, h, hoc]
    rw [h1, h2]
    simp [List.count_cons]

lemma run_completes_aux (p : String) (f t d : ℚ) (e : ℚ → ℚ) (cbId : ℕ) (flip : Bool)
    (hp : p ∈ knownProperties) (he : e 1 = 1) (hd : 0 < d) :
    ∀ (deltas : List ℚ), (∀ x ∈ deltas, 0 ≤ x) →
    ∀ (s : ℚ), s + deltas.sum = d → s < d →
    ∀ c : Card, c.animations = [⟨p, f, t, d, e, s, some cbId, flip⟩] →
      readSlot (runUpdates noRun c deltas).1 p = t ∧
      (runUpdates noRun c deltas).1.animations = [] ∧
      (runUpdates noRun c deltas).2.count (Event.fire cbId) = 1 := by
  intro deltas
  induction deltas with
  | nil =>
    intro _ s hsum hlt c hq
    exfalso
    rw [List.sum_nil, add_zero] at hsum
    exact absurd hsum (ne_of_lt hlt)
  | cons dt rest ih =>
    intro hnn s hsum hlt c hq
    have hdt : 0 ≤ dt := hnn dt (List.mem_cons_self _ _)
    have hrest : ∀ x ∈ rest, 0 ≤ x := fun x hx => hnn x (List.mem_cons_of_mem _ hx)
    have hrsum : 0 ≤ rest.sum := List.sum_nonneg hrest
    have hsum' : s + dt + rest.sum = d := by
      rw [List.sum_cons] at hsum
      linarith
    set a : Animation := ⟨p, f, t, d, e, s, some cbId, flip⟩ with ha
    have hadv : advanceAnim dt a = ⟨p, f, t, d, e, s + dt, some cbId, flip⟩ := rfl
    by_cases hc : s + dt < d
    · -- the animation is still in flight after this frame
      have hprog : ¬ 1 ≤ (advanceAnim dt a).progress := by
        rw [hadv]
        show ¬ 1 ≤ jsMinDiv1 (s + dt) d
        rw [jsMinDiv1, if_neg hd.ne']
        intro hctr
        have hlt1 : (s + dt) / d < 1 := (div_lt_one hd).mpr hc
        have := min_le_left ((s + dt) / d) 1
        have := lt_of_le_of_lt (le_trans hctr (min_le_left _ _)) hlt1
        exact absurd this (lt_irrefl 1)
      obtain ⟨k1, _, k3⟩ := update_singleton_keep dt c a hq hprog
      have hq' : (Card.update noRun dt c).1.animations = [(⟨p, f, t, d, e, s + dt, some cbId, flip⟩ : Animation)] := by
        rw [k1, hadv]
      obtain ⟨r1, r2, r3⟩ := ih hrest (s + dt) (by linarith) hc (Card.update noRun dt c).1 hq'
      refine ⟨?_, ?_, ?_⟩
      · rw [runUpdates_cons_fst]
        exact r1
      · rw [runUpdates_cons_fst]
        exact r2
      · rw [runUpdates_cons_snd, List.count_append, k3 cbId, r3]
    · -- the animation completes in this frame: elapsed reaches exactly d
      have heq : s + dt = d := le_antisymm (by linarith) (not_lt.mp hc)
      have hprog1 : (advanceAnim dt a).progress = 1 := by
        rw [hadv]
        show jsMinDiv1 (s + dt) d = 1
        rw [jsMinDiv1, if_neg hd.ne', heq, div_self hd.ne']
        exact min_self 1
      have hval : interpValue (advanceAnim dt a) = t := by
        rw [interpValue, hprog1, hadv]
        show f + (t - f) * e 1 = t
        rw [he]
        ring
      obtain ⟨k1, k2, k3⟩ := update_singleton_complete dt c a cbId hq rfl (by rw [hprog1])
      obtain ⟨r1, r2, r3⟩ := runUpdates_empty (Card.update noRun dt c).1 k1 rest
      refine ⟨?_, ?_, ?_⟩
      · rw [runUpdates_cons_fst, r2 p, k2 p, hval]
        exact readSlot_applyValue_self c p t hp
      · rw [runUpdates_cons_fst]
        exact r1
      · rw [runUpdates_cons_snd, List.count_append, r3, k3]
        rfl

/-- C1 (amended): for an animation enqueued by `animate(property, from, to,
duration, easing, onComplete)` with `duration > 0` whose easing maps progress
`1` to exactly `1` (as every easing defined in this repository does), running
`update` with non-negative deltas summing to exactly `duration` leaves the
targeted slot holding exactly `to`, empties the queue, and fires `onComplete`
exactly once.  The original claim quantified over arbitrary easings; an easing
with `easing(1) ≠ 1` leaves `from + (to - from) * easing(1)` instead (see the
counterexample). -/
theorem single_animation_completes (p : String) (f t d : ℚ) (e : ℚ → ℚ) (cbId : ℕ)
    (c0 : Card) (deltas : List ℚ)
    (hp : p ∈ knownProperties) (he : e 1 = 1) (hd : 0 < d)
    (hq : c0.animations = []) (hnn : ∀ x ∈ deltas, 0 ≤ x) (hsum : deltas.sum = d) :
    readSlot (runUpdates noRun (c0.animate p f t d e (some cbId)) deltas).1 p = t ∧
    (runUpdates noRun (c0.animate p f t d e (some cbId)) deltas).1.animations = [] ∧
    (runUpdates noRun (c0.animate p f t d e (some cbId)) deltas).2.count (Event.fire cbId) = 1 := by
  apply run_completes_aux p f t d e cbId false hp he hd deltas hnn 0 (by rw [zero_add]; exact hsum) hd
  rw [Card.animate, hq]
  rfl

/-- Counterexample to C1 as stated: `enqueue('opacity', 0, 1, 0.5, halfEase)`
followed by `update(0.25); update(0.25)` (non-negative deltas summing exactly
to the duration) leaves opacity at `0.5`, not at the endpoint `to = 1`,
because the final written value is `from + (to - from) * easing(1)` and
`halfEase(1) = 1/2`. -/
theorem single_animation_completes_cex :
    readSlot (runUpdates noRun (freshCard.animate "opacity" 0 1 (1/2) halfEase (some 0))
      [1/4, 1/4]).1 "opacity" ≠ 1 := by
  have h1 : ¬ 1 ≤ (advanceAnim (1/4)
      (mkAnimation "opacity" 0 1 (1/2) halfEase (some 0))).progress := by
    norm_num [Animation.progress, jsMinDiv1, min_def]
  obtain ⟨k1, _, _⟩ := update_singleton_keep (1/4)
    (freshCard.animate "opacity" 0 1 (1/2) halfEase (some 0)) _ rfl h1
  have h2 : 1 ≤ (advanceAnim (1/4) (advanceAnim (1/4)
      (mkAnimation "opacity" 0 1 (1/2) halfEase (some 0)))).progress := by
    norm_num [Animation.progress, jsMinDiv1, min_def]
  obtain ⟨_, m2, _⟩ := update_singleton_complete (1/4)
    (Card.update noRun (1/4) (freshCard.animate "opacity" 0 1 (1/2) halfEase (some 0))).1
    _ 0 k1 rfl h2
  rw [runUpdates_cons_fst, runUpdates_cons_fst, runUpdates_nil_fst, m2 "opacity"]
  simp only [advanceAnim_property, mkAnimation_property]
  rw [readSlot_applyValue_self _ _ _ (by simp [knownProperties])]
  norm_num [interpValue, Animation.progress, jsMinDiv1, min_def, halfEase]

/-- Witness for C1 at the spec's concrete scenario:
`enqueue('opacity', 0, 1, 0.5, linear)`; after `update(0.25)` the opacity slot
reads `0.5` and the queue is non-empty; after the second `update(0.25)` the
opacity slot reads exactly `1`, the queue is empty, and `onComplete` has fired
exactly once. -/
theorem single_animation_completes_witness :
    readSlot (Card.update noRun (1/4)
        (freshCard.animate "opacity" 0 1 (1/2) linear (some 0))).1 "opacity" = 1/2 ∧
    (Card.update noRun (1/4)
        (freshCard.animate "opacity" 0 1 (1/2) linear (some 0))).1.animations.length = 1 ∧
    (readSlot (runUpdates noRun (freshCard.animate "opacity" 0 1 (1/2) linear (some 0))
        [1/4, 1/4]).1 "opacity" = 1 ∧
      (runUpdates noRun (freshCard.animate "opacity" 0 1 (1/2) linear (some 0))
        [1/4, 1/4]).1.animations = [] ∧
      (runUpdates noRun (freshCard.animate "opacity" 0 1 (1/2) linear (some 0))
        [1/4, 1/4]).2.count (Event.fire 0) = 1) := by
  have h1 : ¬ 1 ≤ (advanceAnim (1/4)
      (mkAnimation "opacity" 0 1 (1/2) linear (some 0))).progress := by
    norm_num [Animation.progress, jsMinDiv1, min_def]
  obtain ⟨k1, k2, _⟩ := update_singleton_keep (1/4)
    (freshCard.animate "opacity" 0 1 (1/2) linear (some 0)) _ rfl h1
  refine ⟨?_, ?_, ?_⟩
  · rw [k2 "opacity"]
    simp only [advanceAnim_property, mkAnimation_property]
    rw [readSlot_applyValue_self _ _ _ (by simp [knownProperties])]
    norm_num [interpValue, Animation.progress, jsMinDiv1, min_def, linear]
  · rw [k1]
    rfl
  · refine single_animation_completes "opacity" 0 1 (1/2) linear 0 freshCard [1/4, 1/4]
      (by simp [knownProperties]) rfl (by norm_num) rfl ?_ ?_
    · intro x hx
      simp only [List.mem_cons, List.not_mem_nil, or_false] at hx
      rcases hx with rfl | rfl <;> norm_num
    · norm_num [List.sum_cons, List.sum_nil]

lemma applyValue_unknown (c : Card) (p : String) (v : ℚ) (hp : p ∉ knownProperties) :
    c.applyValue p v = c := by
  have h : p ≠ "rotationY" ∧ p ≠ "rotationX" ∧ p ≠ "positionX" ∧ p ≠ "positionY" ∧
      p ≠ "positionZ" ∧ p ≠ "scale" ∧ p ≠ "opacity" := by
    simpa [knownProperties, not_or] using hp
  obtain ⟨h1, h2, h3, h4, h5, h6, h7⟩ := h
  unfold Card.applyValue
  rw [if_neg h1, if_neg h2, if_neg h3, if_neg h4, if_neg h5, if_neg h6, if_neg h7]

/-- C2 (amended): an animation whose property name is not one of the
recognized slots is silently ignored by the dispatch chain (which has no
`else` branch and no throw): `update` returns normally, no slot is written,
no write event is emitted, and the animation nevertheless advances and is
kept or removed exactly as a recognized one would be.  The original claim
said this fails with an `InvalidPropertyKind` error; no such error exists in
the code. -/
theorem unknown_property_silent (dt : ℚ) (c : Card) (a : Animation)
    (hp : a.property ∉ knownProperties) (hq : c.animations = [a]) :
    (∀ q, readSlot (Card.update noRun dt c).1 q = readSlot c q) ∧
    (∀ q v, Event.write q v ∉ (Card.update noRun dt c).2) ∧
    (Card.update noRun dt c).1.animations =
      (if 1 ≤ (advanceAnim dt a).progress then [] else [advanceAnim dt a]) := by
  by_cases hcomp : 1 ≤ (advanceAnim dt a).progress
  · refine ⟨?_, ?_, ?_⟩
    · intro q
      rw [update_noRun_readSlot, hq, stepAnims_singleton_complete dt c a hcomp]
      dsimp only
      rw [applyValue_unknown c _ _ hp]
    · intro q v hmem
      rw [update_trace, hq, stepAnims_singleton_complete dt c a hcomp] at hmem
      dsimp only at hmem
      rw [if_neg hp] at hmem
      simp only [List.nil_append, List.mem_map] at hmem
      obtain ⟨j, _, hj⟩ := hmem
      cases hj
    · rw [update_noRun_animations, hq, stepAnims_singleton_complete dt c a hcomp, if_pos hcomp]
  · refine ⟨?_, ?_, ?_⟩
    · intro q
      rw [update_noRun_readSlot, hq, stepAnims_singleton_keep dt c a hcomp]
      dsimp only
      rw [applyValue_unknown c _ _ hp]
    · intro q v hmem
      rw [update_trace, hq, stepAnims_singleton_keep dt c a hcomp] at hmem
      dsimp only at hmem
      rw [if_neg hp] at hmem
      have hci : completedIds dt [a] = [] := by
        simp [completedIds, hcomp]
      rw [hci] at hmem
      cases hmem
    · rw [update_noRun_animations, hq, stepAnims_singleton_keep dt c a hcomp, if_neg hcomp]

/-- Counterexample to C2 as stated: updating a card whose queued animation
targets the unrecognized property `"wobble"` raises no error — `update`
returns normally with every slot unchanged and no write emitted, and the
animation has silently advanced (`elapsed` went from 0 to 1).  The unknown
name is precisely ignored, not rejected. -/
theorem invalid_property_no_error :
    (∀ q, readSlot (Card.update noRun 1 wobbleCard).1 q = readSlot wobbleCard q) ∧
    (Card.update noRun 1 wobbleCard).1.animations.map (fun b => b.elapsed) = [1] ∧
    (Card.update noRun 1 wobbleCard).2 = [] := by
  have hp : ("wobble" : String) ∉ knownProperties := by simp [knownProperties]
  have hprog : ¬ 1 ≤ (advanceAnim 1 (mkAnimation "wobble" 0 5 2 linear none)).progress := by
    norm_num [Animation.progress, jsMinDiv1, min_def]
  have hq : wobbleCard.animations = [mkAnimation "wobble" 0 5 2 linear none] := rfl
  refine ⟨?_, ?_, ?_⟩
  · intro q
    rw [update_noRun_readSlot, hq, stepAnims_singleton_keep _ _ _ hprog]
    dsimp only
    rw [applyValue_unknown _ _ _ (by simpa using hp)]
  · rw [update_noRun_animations, hq, stepAnims_singleton_keep _ _ _ hprog]
    dsimp only
    norm_num
  · rw [update_trace, hq, stepAnims_singleton_keep _ _ _ hprog]
    dsimp only
    rw [if_neg (by simpa using hp)]
    have hci : completedIds 1 [mkAnimation "wobble" 0 5 2 linear none] = [] := by
      simp [completedIds, hprog]
    rw [hci]
    rfl

/-- Witness for C2 (amended) at the concrete input `wobbleCard`, `dt = 1`. -/
theorem unknown_property_silent_witness :
    (∀ q, readSlot (Card.update noRun 1 wobbleCard).1 q = readSlot wobbleCard q) ∧
    (∀ q v, Event.write q v ∉ (Card.update noRun 1 wobbleCard).2) ∧
    (Card.update noRun 1 wobbleCard).1.animations =
      (if 1 ≤ (advanceAnim 1 (mkAnimation "wobble" 0 5 2 linear none)).progress then []
        else [advanceAnim 1 (mkAnimation "wobble" 0 5 2 linear none)]) :=
  unknown_property_silent 1 wobbleCard (mkAnimation "wobble" 0 5 2 linear none)
    (by simp [knownProperties]) rfl

lemma stepAnims_cons_keep (dt : ℚ) (c : Card) (a : Animation) (rest : List Animation)
    (h : ¬ 1 ≤ (advanceAnim dt a).progress) :
    Card.stepAnims dt c (a :: rest) =
      ⟨(Card.stepAnims dt (c.applyValue a.property (interpValue (advanceAnim dt a))) rest).card,
        advanceAnim dt a ::
          (Card.stepAnims dt (c.applyValue a.property (interpValue (advanceAnim dt a))) rest).kept,
        (Card.stepAnims dt (c.applyValue a.property (interpValue (advanceAnim dt a))) rest).fired,
        (if a.property ∈ knownProperties
          then [Event.write a.property (interpValue (advanceAnim dt a))] else []) ++
          (Card.stepAnims dt (c.applyValue a.property (interpValue (advanceAnim dt a))) rest).trace⟩ := by
  conv_lhs => rw [Card.stepAnims]
  rw [if_neg h]
  simp only [interpValue, advanceAnim_property, advanceAnim_from, advanceAnim_to,
    advanceAnim_easing]

lemma stepAnims_pair_keep (dt : ℚ) (c : Card) (a1 a2 : Animation)
    (k1 : ¬ 1 ≤ (advanceAnim dt a1).progress) (k2 : ¬ 1 ≤ (advanceAnim dt a2).progress) :
    Card.stepAnims dt c [a1, a2] =
      ⟨(c.applyValue a1.property (interpValue (advanceAnim dt a1))).applyValue a2.property
          (interpValue (advanceAnim dt a2)),
        [advanceAnim dt a1, advanceAnim dt a2], [],
        (if a1.property ∈ knownProperties
          then [Event.write a1.property (interpValue (advanceAnim dt a1))] else []) ++
        (if a2.property ∈ knownProperties
          then [Event.write a2.property (interpValue (advanceAnim dt a2))] else [])⟩ := by
  rw [stepAnims_cons_keep dt c a1 [a2] k1, stepAnims_singleton_keep _ _ _ k2]

/-- C7: when two in-flight animations target the same recognized property and
neither completes in this frame, a single `update` advances both
independently, writes both interpolated values to the same slot in queue
order (so the slot ends at the later animation's value: last-write-wins per
frame), and keeps both queued — neither is dropped or merged. -/
theorem same_property_last_write_wins (dt : ℚ) (c : Card) (a1 a2 : Animation) (p : String)
    (hp : p ∈ knownProperties) (h1 : a1.property = p) (h2 : a2.property = p)
    (hq : c.animations = [a1, a2])
    (k1 : ¬ 1 ≤ (advanceAnim dt a1).progress) (k2 : ¬ 1 ≤ (advanceAnim dt a2).progress) :
    (Card.update noRun dt c).1.animations = [advanceAnim dt a1, advanceAnim dt a2] ∧
    readSlot (Card.update noRun dt c).1 p = interpValue (advanceAnim dt a2) ∧
    (Card.update noRun dt c).2 =
      [Event.write p (interpValue (advanceAnim dt a1)),
       Event.write p (interpValue (advanceAnim dt a2))] := by
  refine ⟨?_, ?_, ?_⟩
  · rw [update_noRun_animations, hq, stepAnims_pair_keep dt c a1 a2 k1 k2]
  · rw [update_noRun_readSlot, hq, stepAnims_pair_keep dt c a1 a2 k1 k2]
    dsimp only
    rw [h1, h2, readSlot_applyValue_self _ _ _ hp]
  · rw [update_trace, hq, stepAnims_pair_keep dt c a1 a2 k1 k2]
    dsimp only
    have hci : completedIds dt [a1, a2] = [] := by
      simp [completedIds, k1, k2]
    rw [hci, h1, h2, if_pos hp, if_pos hp]
    rfl

/-- Witness for C7 at the spec's conflicting-`positionZ` scenario, advanced by
a quarter-second frame in which neither animation completes. -/
theorem same_property_last_write_wins_witness :
    (Card.update noRun (1/4) conflictCard).1.animations =
      [advanceAnim (1/4) (mkAnimation "positionZ" 3 0 (1/2) easeOutCubic none),
       advanceAnim (1/4) (mkAnimation "positionZ" 3 (-15) (3/5) easeInCubic none)] ∧
    readSlot (Card.update noRun (1/4) conflictCard).1 "positionZ" =
      interpValue (advanceAnim (1/4) (mkAnimation "positionZ" 3 (-15) (3/5) easeInCubic none)) ∧
    (Card.update noRun (1/4) conflictCard).2 =
      [Event.write "positionZ"
        (interpValue (advanceAnim (1/4) (mkAnimation "positionZ" 3 0 (1/2) easeOutCubic none))),
       Event.write "positionZ"
        (interpValue (advanceAnim (1/4) (mkAnimation "positionZ" 3 (-15) (3/5) easeInCubic none)))] :=
  same_property_last_write_wins (1/4) conflictCard
    (mkAnimation "positionZ" 3 0 (1/2) easeOutCubic none)
    (mkAnimation "positionZ" 3 (-15) (3/5) easeInCubic none) "positionZ"
    (by simp [knownProperties]) rfl rfl rfl
    (by norm_num [Animation.progress, jsMinDiv1, min_def])
    (by norm_num [Animation.progress, jsMinDiv1, min_def])

/-- C8 (amended): a `duration = 0` animation completes on the first `update`
whose `deltaTime` is strictly positive (in IEEE terms `elapsed / 0 = +∞`, so
progress clamps to 1): the slot receives the terminal value (for an easing
fixing 1), the animation is removed, and its callback fires once.  At
`deltaTime = 0` this fails — see the counterexample — so "regardless of the
deltaTime value (including deltaTime = 0)" had to be weakened to
`deltaTime > 0`. -/
theorem zero_duration_completes (dt : ℚ) (p : String) (f t : ℚ) (e : ℚ → ℚ) (cbId : ℕ)
    (c : Card) (flip : Bool) (hp : p ∈ knownProperties) (he : e 1 = 1) (hdt : 0 < dt)
    (hq : c.animations = [⟨p, f, t, 0, e, 0, some cbId, flip⟩]) :
    readSlot (Card.update noRun dt c).1 p = t ∧
    (Card.update noRun dt c).1.animations = [] ∧
    (Card.update noRun dt c).2.count (Event.fire cbId) = 1 := by
  have hprog : (advanceAnim dt (⟨p, f, t, 0, e, 0, some cbId, flip⟩ : Animation)).progress = 1 := by
    show jsMinDiv1 (0 + dt) 0 = 1
    rw [jsMinDiv1, if_pos rfl, if_pos (by linarith)]
  obtain ⟨m1, m2, m3⟩ := update_singleton_complete dt c
    (⟨p, f, t, 0, e, 0, some cbId, flip⟩ : Animation) cbId hq rfl (le_of_eq hprog.symm)
  have hval : interpValue (advanceAnim dt (⟨p, f, t, 0, e, 0, some cbId, flip⟩ : Animation)) = t := by
    rw [interpValue, hprog]
    show f + (t - f) * e 1 = t
    rw [he]
    ring
  refine ⟨?_, m1, m3⟩
  rw [m2 p, hval]
  exact readSlot_applyValue_self c p t hp

/-- Counterexample to C8 as stated: at `deltaTime = 0` a `duration = 0`
animation does **not** complete on its first `update`.  In the source,
`elapsed / duration` is `0 / 0 = NaN`, `Math.min(NaN, 1)` is `NaN`, and
`NaN >= 1` is false, so the animation stays queued and its `onComplete` never
fires (here: after `update(0)` the queue still holds the animation, with
`elapsed` still 0, and no fire event occurred). -/
theorem zero_duration_cex :
    (Card.update noRun 0 zeroDurCard).1.animations.map (fun b => b.elapsed) = [0] ∧
    ∀ id, Event.fire id ∉ (Card.update noRun 0 zeroDurCard).2 := by
  have hprog : ¬ 1 ≤ (advanceAnim 0 (mkAnimation "opacity" 0 1 0 linear (some 7))).progress := by
    show ¬ 1 ≤ jsMinDiv1 (0 + 0) 0
    rw [jsMinDiv1, if_pos rfl, if_neg (by norm_num)]
    norm_num
  have hq : zeroDurCard.animations = [mkAnimation "opacity" 0 1 0 linear (some 7)] := rfl
  constructor
  · rw [update_noRun_animations, hq, stepAnims_singleton_keep _ _ _ hprog]
    dsimp only
    norm_num
  · intro id hmem
    rw [update_trace, hq, stepAnims_singleton_keep _ _ _ hprog] at hmem
    dsimp only at hmem
    have hci : completedIds 0 [mkAnimation "opacity" 0 1 0 linear (some 7)] = [] := by
      simp [completedIds, hprog]
    rw [hci] at hmem
    simp [knownProperties] at hmem

/-- Witness for C8 (amended) at `deltaTime = 1` on the concrete
`duration = 0` opacity animation with callback 7. -/
theorem zero_duration_completes_witness :
    readSlot (Card.update noRun 1 zeroDurCard).1 "opacity" = 1 ∧
    (Card.update noRun 1 zeroDurCard).1.animations = [] ∧
    (Card.update noRun 1 zeroDurCard).2.count (Event.fire 7) = 1 :=
  zero_duration_completes 1 "opacity" 0 1 linear 7 zeroDurCard false
    (by simp [knownProperties]) rfl (by norm_num) rfl

/-- C10: `setHover(isHovered)` is a complete no-op (returns the card exactly
as it was: no field changed, nothing removed from or added to the queue) when
a flip-tagged animation is queued or the card is sliding; otherwise it sets
the hover flag and replaces the queue with the old queue filtered by
`keepOnHover` (dropping every non-flip `scale` / `positionZ` animation)
followed by the two freshly enqueued replacement animations. -/
theorem setHover_gating (c : Card) (hov : Bool) :
    (c.animations.any (·.isFlipAnimation) = true ∨ c.isSliding = true →
      c.setHover hov = c) ∧
    (c.animations.any (·.isFlipAnimation) = false → c.isSliding = false →
      (c.setHover hov).isHovered = hov ∧
      (c.setHover hov).animations =
        c.animations.filter keepOnHover ++
          [mkAnimation "scale" c.currentScale (if hov then HOVER_SCALE else 1) 0.2
            easeOutCubic none,
           mkAnimation "positionZ" c.currentPositionZ (if hov then 0.3 else 0) 0.2
            easeOutCubic none]) := by
  constructor
  · intro hcond
    have hb : (c.animations.any (·.isFlipAnimation) || c.isSliding) = true := by
      rcases hcond with h1 | h1 <;> simp [h1]
    rw [Card.setHover]
    simp only [hb, if_true]
  · intro hflip hslide
    have hb : (c.animations.any (·.isFlipAnimation) || c.isSliding) = false := by
      simp [hflip, hslide]
    rw [Card.setHover]
    simp only [hb, Bool.false_eq_true, if_false]
    cases hov <;> simp [Card.animate]

/-- Witness for C10: a sliding card is untouched by `setHover(true)`; a clean
card with one non-flip `scale` animation gets that animation cleared and the
two replacement animations enqueued, with the hover flag set. -/
theorem setHover_gating_witness :
    (slidingCard.animations.any (·.isFlipAnimation) = true ∨ slidingCard.isSliding = true) ∧
    slidingCard.setHover true = slidingCard ∧
    hoverDemoCard.animations.any (·.isFlipAnimation) = false ∧
    hoverDemoCard.isSliding = false ∧
    (hoverDemoCard.setHover true).isHovered = true ∧
    (hoverDemoCard.setHover true).animations =
      hoverDemoCard.animations.filter keepOnHover ++
        [mkAnimation "scale" hoverDemoCard.currentScale (if true then HOVER_SCALE else 1) 0.2
          easeOutCubic none,
         mkAnimation "positionZ" hoverDemoCard.currentPositionZ (if true then 0.3 else 0) 0.2
          easeOutCubic none] :=
  ⟨Or.inr rfl, (setHover_gating slidingCard true).1 (Or.inr rfl), rfl, rfl,
    ((setHover_gating hoverDemoCard true).2 rfl rfl).1,
    ((setHover_gating hoverDemoCard true).2 rfl rfl).2⟩

end MediaArt
